import Mathlib

/-!
Shallow embedding of the juz (partition) resolver and the juz-filtered
chapter lookups of the `athar-be` repository, together with proofs of the
specification's testable properties.

Sources embedded:
* `src/data/juz-mapping.ts` — the 30-entry partition boundary table and the
  pure functions `getJuzByVerse`, `getJuzListBySurah`.
* `src/services/juz.service.ts` — `JuzService.findByNumber`,
  `JuzService.findSurahByJuz`, `JuzService.findSurahTafsirByJuz`, with the
  Prisma storage collaborator modelled as explicit lists of rows.
* `src/schemas/juz.schema.ts` — the query-parameter validation bounds.

TypeScript numbers are modelled as `Int` (all the code performs are integer
comparisons and additions, which never overflow the double range for the
inputs involved).
-/

/-- A (surah, verse) address; `{ surah: number; verse: number }` in the source. -/
structure SurahVerse where
  surah : Int
  verse : Int
deriving DecidableEq, Repr

/-- One entry of the juz table (`JuzRange` in `juz-mapping.ts`).
The source field `end` is a Lean keyword, so it is named `stop` here. -/
structure JuzRange where
  juz : Int
  start : SurahVerse
  stop : SurahVerse
deriving DecidableEq, Repr

/-- The constant 30-entry partition boundary table (`juzMapping` in
`juz-mapping.ts`), inclusive start and end addresses for each juz. -/
def juzMapping : List JuzRange := [
  ⟨1, ⟨1, 1⟩, ⟨2, 141⟩⟩,
  ⟨2, ⟨2, 142⟩, ⟨2, 252⟩⟩,
  ⟨3, ⟨2, 253⟩, ⟨3, 92⟩⟩,
  ⟨4, ⟨3, 93⟩, ⟨4, 23⟩⟩,
  ⟨5, ⟨4, 24⟩, ⟨4, 147⟩⟩,
  ⟨6, ⟨4, 148⟩, ⟨5, 81⟩⟩,
  ⟨7, ⟨5, 82⟩, ⟨6, 110⟩⟩,
  ⟨8, ⟨6, 111⟩, ⟨7, 87⟩⟩,
  ⟨9, ⟨7, 88⟩, ⟨8, 40⟩⟩,
  ⟨10, ⟨8, 41⟩, ⟨9, 92⟩⟩,
  ⟨11, ⟨9, 93⟩, ⟨11, 5⟩⟩,
  ⟨12, ⟨11, 6⟩, ⟨12, 52⟩⟩,
  ⟨13, ⟨12, 53⟩, ⟨14, 52⟩⟩,
  ⟨14, ⟨15, 1⟩, ⟨16, 128⟩⟩,
  ⟨15, ⟨17, 1⟩, ⟨18, 74⟩⟩,
  ⟨16, ⟨18, 75⟩, ⟨20, 135⟩⟩,
  ⟨17, ⟨21, 1⟩, ⟨22, 78⟩⟩,
  ⟨18, ⟨23, 1⟩, ⟨25, 20⟩⟩,
  ⟨19, ⟨25, 21⟩, ⟨27, 55⟩⟩,
  ⟨20, ⟨27, 56⟩, ⟨29, 45⟩⟩,
  ⟨21, ⟨29, 46⟩, ⟨33, 30⟩⟩,
  ⟨22, ⟨33, 31⟩, ⟨36, 27⟩⟩,
  ⟨23, ⟨36, 28⟩, ⟨39, 31⟩⟩,
  ⟨24, ⟨39, 32⟩, ⟨41, 46⟩⟩,
  ⟨25, ⟨41, 47⟩, ⟨45, 37⟩⟩,
  ⟨26, ⟨46, 1⟩, ⟨51, 30⟩⟩,
  ⟨27, ⟨51, 31⟩, ⟨57, 29⟩⟩,
  ⟨28, ⟨58, 1⟩, ⟨66, 12⟩⟩,
  ⟨29, ⟨67, 1⟩, ⟨77, 50⟩⟩,
  ⟨30, ⟨78, 1⟩, ⟨114, 6⟩⟩]

/-- The loop-body test of `getJuzByVerse`: `(surahNumber, verseNumber)` is
lexicographically ≥ the range's start (`isAfterStart` in the source). -/
def isAfterStart (juzData : JuzRange) (surahNumber verseNumber : Int) : Bool :=
  decide (surahNumber > juzData.start.surah) ||
    (decide (surahNumber = juzData.start.surah) &&
      decide (verseNumber ≥ juzData.start.verse))

/-- The loop-body test of `getJuzByVerse`: `(surahNumber, verseNumber)` is
lexicographically ≤ the range's end (`isBeforeEnd` in the source). -/
def isBeforeEnd (juzData : JuzRange) (surahNumber verseNumber : Int) : Bool :=
  decide (surahNumber < juzData.stop.surah) ||
    (decide (surahNumber = juzData.stop.surah) &&
      decide (verseNumber ≤ juzData.stop.verse))

/-- Whether a range contains the address: the conjunction tested inside the
`for` loop of `getJuzByVerse`. -/
def containsVerse (juzData : JuzRange) (surahNumber verseNumber : Int) : Bool :=
  isAfterStart juzData surahNumber verseNumber &&
    isBeforeEnd juzData surahNumber verseNumber

/-- `getJuzByVerse` from `juz-mapping.ts`: scan `juzMapping` in order and
return the first juz whose range contains the address, defaulting to 1 when
no range matches. -/
def getJuzByVerse (surahNumber verseNumber : Int) : Int :=
  match juzMapping.find? (fun juzData => containsVerse juzData surahNumber verseNumber) with
  | some juzData => juzData.juz
  | none => 1

/-- JS `Set.prototype.add` on a list kept in insertion order. -/
def setAdd (l : List Int) (x : Int) : List Int :=
  if l.contains x then l else l ++ [x]

/-- Insert into a ≤-sorted list (used to model the final numeric
`Array.prototype.sort((a, b) => a - b)`). -/
def insertSorted (x : Int) : List Int → List Int
  | [] => [x]
  | y :: ys => if x ≤ y then x :: y :: ys else y :: insertSorted x ys

/-- Numeric ascending sort, modelling `.sort((a, b) => a - b)`. -/
def sortInts (l : List Int) : List Int :=
  l.foldr insertSorted []

/-- `getJuzListBySurah` from `juz-mapping.ts`: collect the juz of verse 1 and
of the last verse into a JS `Set`, then every juz from the first to the last,
and return the set's elements sorted ascending. -/
def getJuzListBySurah (surahNumber totalVerses : Int) : List Int :=
  let s0 := setAdd [] (getJuzByVerse surahNumber 1)
  let s1 := setAdd s0 (getJuzByVerse surahNumber totalVerses)
  let firstJuz := getJuzByVerse surahNumber 1
  let lastJuz := getJuzByVerse surahNumber totalVerses
  let s2 := (List.range (lastJuz - firstJuz + 1).toNat).foldl
    (fun acc i => setAdd acc (firstJuz + (i : Int))) s1
  sortInts s2

/-- `getJuzInfo` from `juz-mapping.ts`. -/
def getJuzInfo (juzNumber : Int) : Option JuzRange :=
  juzMapping.find? (fun j => j.juz == juzNumber)

/-- Modelled from the spec: the per-chapter verse counts of the fixed corpus.
The repository stores these only as database rows seeded from the external
provider (`scripts/seed-surah.ts` fetches each chapter's `jumlahAyat`), so the
values are not in the source tree; this is the canonical 114-entry table of
the fixed text the spec describes (chapter 1 has 7 verses, chapter 2 has 286,
..., chapter 114 has 6), consistent with the partition boundary table. -/
def verseCounts : List Int := [
  7, 286, 200, 176, 120, 165, 206, 75, 129, 109,
  123, 111, 43, 52, 99, 128, 111, 110, 98, 135,
  112, 78, 118, 64, 77, 227, 93, 88, 69, 60,
  34, 30, 73, 54, 45, 83, 182, 88, 75, 85,
  54, 53, 89, 59, 37, 35, 38, 29, 18, 45,
  60, 49, 62, 55, 78, 96, 29, 22, 24, 13,
  14, 11, 11, 18, 12, 12, 30, 52, 52, 44,
  28, 28, 20, 56, 40, 31, 50, 40, 46, 42,
  29, 19, 36, 25, 22, 17, 19, 26, 30, 20,
  15, 21, 11, 8, 8, 19, 5, 8, 8, 11,
  11, 8, 3, 9, 5, 4, 7, 3, 6, 3,
  5, 4, 5, 6]

/-- Modelled from the spec: the verse count of a chapter (0 for out-of-domain
chapter numbers). -/
def verseCount (chapter : Int) : Int :=
  (verseCounts.get? (chapter - 1).toNat).getD 0

/-- A valid verse address: chapter in 1..114, verse in 1..the chapter's
verse count (the domain precondition of §4.2 of the spec). -/
def validPair (chapter verse : Int) : Prop :=
  1 ≤ chapter ∧ chapter ≤ 114 ∧ 1 ≤ verse ∧ verse ≤ verseCount chapter

instance (chapter verse : Int) : Decidable (validPair chapter verse) :=
  inferInstanceAs (Decidable (1 ≤ chapter ∧ chapter ≤ 114 ∧ 1 ≤ verse ∧ verse ≤ verseCount chapter))

/-- The canonical "chapter, then verse-within-chapter" order (§4.2 of the
spec), non-strict. -/
def lexLe (a b : SurahVerse) : Prop :=
  a.surah < b.surah ∨ (a.surah = b.surah ∧ a.verse ≤ b.verse)

/-- The canonical order, strict. -/
def lexLt (a b : SurahVerse) : Prop :=
  a.surah < b.surah ∨ (a.surah = b.surah ∧ a.verse < b.verse)

instance (a b : SurahVerse) : Decidable (lexLe a b) :=
  inferInstanceAs (Decidable (a.surah < b.surah ∨ (a.surah = b.surah ∧ a.verse ≤ b.verse)))

instance (a b : SurahVerse) : Decidable (lexLt a b) :=
  inferInstanceAs (Decidable (a.surah < b.surah ∨ (a.surah = b.surah ∧ a.verse < b.verse)))

/-- Boolean chain check over adjacent elements of a list (used to state
decidable facts about adjacent entries of the partition table). -/
def chainB (R : JuzRange → JuzRange → Bool) : List JuzRange → Bool
  | [] => true
  | [_] => true
  | a :: b :: rest => R a b && chainB R (b :: rest)

/-- Modelled from the spec: the successor of an address in canonical order
over the fixed corpus (next verse in the chapter, else first verse of the
next chapter). Uses the modelled `verseCount` table. -/
def succPos (p : SurahVerse) : SurahVerse :=
  if p.verse + 1 ≤ verseCount p.surah then ⟨p.surah, p.verse + 1⟩
  else ⟨p.surah + 1, 1⟩

/-- Modelled from the spec: the predecessor of an address in canonical order
("the verse immediately before the start pair"). -/
def predPos (p : SurahVerse) : SurahVerse :=
  if p.verse > 1 then ⟨p.surah, p.verse - 1⟩
  else ⟨p.surah - 1, verseCount (p.surah - 1)⟩

/-- The ascending, duplicate-free sequence of consecutive integers from `a`
to `b` inclusive — the spec's description (§4.3) of what
`getJuzListBySurah` returns; compared against the implementation. -/
def rangeInclusive (a b : Int) : List Int :=
  (List.range (b - a + 1).toNat).map (fun i => a + (i : Int))

/-! ### Storage model

The Prisma collaborator is modelled as explicit lists of rows.  Only the
columns the embedded services inspect are kept: a verse row carries its
chapter number, verse number within the chapter and partition (juz) tag; a
surah row is represented by its chapter number (name, meaning, … are never
branched on); a tafsir row carries its (chapter, verse) key. -/

/-- A row of the `verse` table (text/audio columns elided). -/
structure VerseRec where
  surahNumber : Int
  number : Int
  juz : Int
deriving DecidableEq, Repr

/-- A row of the `tafsir` table (text column elided). -/
structure TafsirRec where
  surahNumber : Int
  verseNumber : Int
deriving DecidableEq, Repr

/-- The stored corpus: the surah table (chapter numbers present), the verse
table and the tafsir table. -/
structure DB where
  surahs : List Int
  verses : List VerseRec
  tafsirs : List TafsirRec
deriving Repr

/-- `JuzSurahQuery` from `juz.schema.ts`: the optional verse sub-range
bounds of the query string. -/
structure JuzSurahQuery where
  fromVerse : Option Int := none
  toVerse : Option Int := none
deriving DecidableEq, Repr

/-- The validation performed by `juzSurahQuerySchema`: `fromVerse` is
optional with a lower bound of 1, `toVerse` is optional with no bound. -/
def juzSurahQueryValid (fromVerse toVerse : Option Int) : Bool :=
  (match fromVerse with | none => true | some f => decide (f ≥ 1)) &&
  (match toVerse with | none => true | some _ => true)

/-- JavaScript truthiness of an optional number: `undefined` and `0` are
falsy (`NaN` is not representable in this model). -/
def truthy : Option Int → Bool
  | none => false
  | some x => !(x == 0)

/-- The `verseWhere.number` object built by `findSurahByJuz`. -/
structure NumberFilter where
  gte : Option Int := none
  lte : Option Int := none
deriving DecidableEq, Repr

/-- Building `verseWhere.number` as in the source: only when
`query.fromVerse || query.toVerse` is truthy, and each bound only when
itself truthy. -/
def buildNumberFilter (query : JuzSurahQuery) : Option NumberFilter :=
  if truthy query.fromVerse || truthy query.toVerse then
    some { gte := if truthy query.fromVerse then query.fromVerse else none,
           lte := if truthy query.toVerse then query.toVerse else none }
  else none

/-- Prisma semantics of the `number` filter: `gte`/`lte` bounds when
present. -/
def numberFilterOk (f : Option NumberFilter) (n : Int) : Bool :=
  match f with
  | none => true
  | some nf =>
    (match nf.gte with | none => true | some g => decide (n ≥ g)) &&
    (match nf.lte with | none => true | some l => decide (n ≤ l))

/-- The full `verseWhere` clause of `findSurahByJuz` applied to a verse
row. -/
def verseMatches (surahNumber juzNumber : Int) (query : JuzSurahQuery)
    (r : VerseRec) : Bool :=
  r.surahNumber == surahNumber && r.juz == juzNumber &&
    numberFilterOk (buildNumberFilter query) r.number

/-- Insertion into a list sorted ascending by an integer key. -/
def insertByKey {α : Type} (key : α → Int) (x : α) : List α → List α
  | [] => [x]
  | y :: ys => if key x ≤ key y then x :: y :: ys else y :: insertByKey key x ys

/-- `orderBy key asc` of the storage collaborator. -/
def sortByKey {α : Type} (key : α → Int) (l : List α) : List α :=
  l.foldr (insertByKey key) []

/-- Insertion into a strictly ascending duplicate-free list, dropping
duplicates. -/
def insertDistinct (x : Int) : List Int → List Int
  | [] => [x]
  | y :: ys =>
    if x < y then x :: y :: ys
    else if x == y then y :: ys
    else y :: insertDistinct x ys

/-- The distinct values of a list, sorted ascending. -/
def distinctSorted (l : List Int) : List Int :=
  l.foldr insertDistinct []

/-- Prisma `verse.groupBy({ by: [surahNumber], where: { juz }, orderBy asc })`:
the distinct chapter numbers with a stored verse tagged with this juz,
ascending. -/
def surahsInJuz (verses : List VerseRec) (juzNumber : Int) : List Int :=
  distinctSorted ((verses.filter (fun r => r.juz == juzNumber)).map (·.surahNumber))

/-- Index of the first occurrence, if any. -/
def findIdxN (l : List Int) (x : Int) : Option Nat :=
  match l with
  | [] => none
  | y :: ys => if y == x then some 0 else (findIdxN ys x).map (· + 1)

/-- JavaScript `Array.prototype.indexOf`: first index or −1. -/
def jsIndexOf (l : List Int) (x : Int) : Int :=
  match findIdxN l x with
  | some i => (i : Int)
  | none => -1

/-- Prisma `surah.findUnique({ where: { number } })`, reduced to the chapter
number (the only attribute later branched on). -/
def surahLookup (db : DB) (n : Int) : Option Int :=
  if db.surahs.contains n then some n else none

/-- A navigation reference `{ juz, surah }` as produced for
`prevInfo` / `nextInfo`. -/
structure NavInfo where
  juz : Int
  surah : Int
deriving DecidableEq, Repr

/-- The "determine prev surah" block of `findSurahByJuz` (also verbatim in
`findSurahTafsirByJuz`): previous chapter in the same juz when the current
one is not first, otherwise the last chapter of the previous juz when the
juz is not 1. -/
def prevNavOf (db : DB) (juzNumber : Int) (surahNumbers : List Int)
    (currentIndex : Int) : Option NavInfo :=
  if currentIndex > 0 then
    match surahNumbers.get? (currentIndex - 1).toNat with
    | some prevSurahNumber =>
      (surahLookup db prevSurahNumber).map (fun s => ⟨juzNumber, s⟩)
    | none => none
  else if juzNumber > 1 then
    match (surahsInJuz db.verses (juzNumber - 1)).reverse with
    | [] => none
    | h :: _ => (surahLookup db h).map (fun s => ⟨juzNumber - 1, s⟩)
  else none

/-- The "determine next surah" block of `findSurahByJuz` (also verbatim in
`findSurahTafsirByJuz`). -/
def nextNavOf (db : DB) (juzNumber : Int) (surahNumbers : List Int)
    (currentIndex : Int) : Option NavInfo :=
  if currentIndex < (surahNumbers.length : Int) - 1 then
    match surahNumbers.get? (currentIndex + 1).toNat with
    | some nextSurahNumber =>
      (surahLookup db nextSurahNumber).map (fun s => ⟨juzNumber, s⟩)
    | none => none
  else if juzNumber < 30 then
    match surahsInJuz db.verses (juzNumber + 1) with
    | [] => none
    | h :: _ => (surahLookup db h).map (fun s => ⟨juzNumber + 1, s⟩)
  else none

/-- The payload of a successful `findSurahByJuz`. -/
structure JuzSurahResult where
  juz : Int
  surah : Int
  verses : List VerseRec
  prevInfo : Option NavInfo
  nextInfo : Option NavInfo
deriving DecidableEq, Repr

/-- `JuzService.findSurahByJuz` from `juz.service.ts`: `null` when the juz
number is not in the table, when the surah row is missing, or when no verse
row matches the (surah, juz, optional sub-range) filter; otherwise the
filtered verses plus prev/next navigation. -/
def findSurahByJuz (db : DB) (juzNumber surahNumber : Int)
    (query : JuzSurahQuery) : Option JuzSurahResult :=
  match juzMapping.find? (fun j => j.juz == juzNumber) with
  | none => none
  | some _ =>
    match surahLookup db surahNumber with
    | none => none
    | some surah =>
      let verses := sortByKey (fun r => r.number)
        (db.verses.filter (verseMatches surahNumber juzNumber query))
      if verses.isEmpty then none
      else
        let surahNumbers := surahsInJuz db.verses juzNumber
        let currentIndex := jsIndexOf surahNumbers surahNumber
        some { juz := juzNumber, surah := surah, verses := verses,
               prevInfo := prevNavOf db juzNumber surahNumbers currentIndex,
               nextInfo := nextNavOf db juzNumber surahNumbers currentIndex }

/-- The payload of a successful `findSurahTafsirByJuz`. -/
structure JuzTafsirResult where
  juz : Int
  surah : Int
  tafsir : List TafsirRec
  prevInfo : Option NavInfo
  nextInfo : Option NavInfo
deriving DecidableEq, Repr

/-- `JuzService.findSurahTafsirByJuz` from `juz.service.ts`: same gating as
`findSurahByJuz` (including `null` when the filtered verse list is empty),
but returns the tafsir rows of the matching verse numbers. -/
def findSurahTafsirByJuz (db : DB) (juzNumber surahNumber : Int)
    (query : JuzSurahQuery) : Option JuzTafsirResult :=
  match juzMapping.find? (fun j => j.juz == juzNumber) with
  | none => none
  | some _ =>
    match surahLookup db surahNumber with
    | none => none
    | some surah =>
      let versesInJuz := sortByKey (fun r => r.number)
        (db.verses.filter (verseMatches surahNumber juzNumber query))
      if versesInJuz.isEmpty then none
      else
        let verseNumbers := versesInJuz.map (fun r => r.number)
        let tafsir := sortByKey (fun t => t.verseNumber)
          (db.tafsirs.filter
            (fun t => t.surahNumber == surahNumber && verseNumbers.contains t.verseNumber))
        let surahNumbers := surahsInJuz db.verses juzNumber
        let currentIndex := jsIndexOf surahNumbers surahNumber
        some { juz := juzNumber, surah := surah, tafsir := tafsir,
               prevInfo := prevNavOf db juzNumber surahNumbers currentIndex,
               nextInfo := nextNavOf db juzNumber surahNumbers currentIndex }

/-- The verse numbers of a chapter stored under a juz tag (the rows behind
one group of `findByNumber`'s `groupBy surahNumber`). -/
def versesOfSurahInJuz (verses : List VerseRec) (juzNumber sn : Int) : List Int :=
  (verses.filter (fun r => r.juz == juzNumber && r.surahNumber == sn)).map (fun r => r.number)

/-- Minimum of a list of integers, if nonempty (`_min` aggregate). -/
def listMin? (l : List Int) : Option Int :=
  l.foldr (fun x acc => match acc with | none => some x | some m => some (min x m)) none

/-- Maximum of a list of integers, if nonempty (`_max` aggregate). -/
def listMax? (l : List Int) : Option Int :=
  l.foldr (fun x acc => match acc with | none => some x | some m => some (max x m)) none

/-- One element of `findByNumber`'s `surahsWithRange` (surah attributes other
than the number elided). -/
structure SurahInJuzInfo where
  number : Int
  versesStart : Int
  versesEnd : Int
  totalVersesInJuz : Int
deriving DecidableEq, Repr

/-- The payload of a successful `findByNumber`. -/
structure JuzDetail where
  number : Int
  start : SurahVerse
  stop : SurahVerse
  totalVerses : Int
  surahs : List SurahInJuzInfo
  prevInfo : Option Int
  nextInfo : Option Int
deriving DecidableEq, Repr

/-- `JuzService.findByNumber` from `juz.service.ts`: `null` for a juz number
outside the table; otherwise the declared boundary, the per-chapter verse
ranges actually stored under the juz tag, and adjacent-juz references that
are `null` at the ends. -/
def findByNumber (db : DB) (number : Int) : Option JuzDetail :=
  match juzMapping.find? (fun j => j.juz == number) with
  | none => none
  | some juzInfo =>
    let surahNums := surahsInJuz db.verses number
    let totalVerses := (surahNums.map
      (fun sn => ((versesOfSurahInJuz db.verses number sn).length : Int))).foldl (· + ·) 0
    let surahsWithRange := (surahNums.filter (fun sn => db.surahs.contains sn)).map
      (fun sn =>
        { number := sn,
          versesStart := (listMin? (versesOfSurahInJuz db.verses number sn)).getD 1,
          versesEnd := (listMax? (versesOfSurahInJuz db.verses number sn)).getD 1,
          totalVersesInJuz := ((versesOfSurahInJuz db.verses number sn).length : Int) })
    let prevJuz := if number > 1 then juzMapping.find? (fun j => j.juz == number - 1) else none
    let nextJuz := if number < 30 then juzMapping.find? (fun j => j.juz == number + 1) else none
    some { number := number, start := juzInfo.start, stop := juzInfo.stop,
           totalVerses := totalVerses, surahs := surahsWithRange,
           prevInfo := prevJuz.map (fun j => j.juz),
           nextInfo := nextJuz.map (fun j => j.juz) }

/-- A small consistent stored corpus used to instantiate hypotheses: every
verse row's juz tag equals `getJuzByVerse` of its address, and every verse's
chapter is in the surah table. -/
def exampleDb : DB :=
  { surahs := [1, 2, 114],
    verses := [⟨1, 1, 1⟩, ⟨1, 2, 1⟩, ⟨2, 1, 1⟩, ⟨2, 142, 2⟩, ⟨114, 6, 30⟩],
    tafsirs := [⟨1, 1⟩, ⟨1, 2⟩] }

example : getJuzByVerse 1 1 = 1 := by decide
example : getJuzByVerse 2 142 = 2 := by decide
example : getJuzByVerse 114 6 = 30 := by decide
example : getJuzByVerse 14 53 = 1 := by decide
example : getJuzListBySurah 2 286 = [1, 2, 3] := by decide
example : verseCount 114 = 6 := by decide

/-! ### Lexicographic-order facts about the partition table -/

theorem containsVerse_iff (r : JuzRange) (c v : Int) :
    containsVerse r c v = true ↔ lexLe r.start ⟨c, v⟩ ∧ lexLe ⟨c, v⟩ r.stop := by
  simp only [containsVerse, isAfterStart, isBeforeEnd, lexLe, Bool.and_eq_true,
    Bool.or_eq_true, decide_eq_true_eq]
  omega

theorem chainB_chain' (R : JuzRange → JuzRange → Bool) (S : JuzRange → JuzRange → Prop)
    (hRS : ∀ a b, R a b = true → S a b) :
    ∀ l : List JuzRange, chainB R l = true → List.Chain' S l := by
  intro l
  induction l with
  | nil => intro; simp
  | cons a rest ih =>
    cases rest with
    | nil => intro; simp
    | cons b rest2 =>
      intro h
      rw [chainB, Bool.and_eq_true] at h
      exact List.chain'_cons.mpr ⟨hRS a b h.1, ih h.2⟩

theorem juz_chain :
    List.Chain' (fun a b => b.start = succPos a.stop) juzMapping :=
  chainB_chain' (fun a b => b.start == succPos a.stop) _
    (fun _ _ h => by exact beq_iff_eq.mp h) juzMapping (by decide)

/-- Separation between table entries: the earlier entry ends strictly before
the later one starts, and the later one is well-formed. -/
def sepRel (a b : JuzRange) : Prop :=
  lexLt a.stop b.start ∧ lexLe b.start b.stop

instance (a b : JuzRange) : Decidable (sepRel a b) :=
  inferInstanceAs (Decidable (lexLt a.stop b.start ∧ lexLe b.start b.stop))

instance : IsTrans JuzRange sepRel where
  trans a b c hab hbc := by
    obtain ⟨h1, h2⟩ := hab
    obtain ⟨h3, h4⟩ := hbc
    refine ⟨?_, h4⟩
    simp only [lexLt, lexLe] at *
    omega

theorem juz_chain_sep : List.Chain' sepRel juzMapping :=
  chainB_chain' (fun a b => decide (sepRel a b)) _
    (fun _ _ h => of_decide_eq_true h) juzMapping (by decide)

theorem juz_pairwise_sep : List.Pairwise sepRel juzMapping :=
  List.chain'_iff_pairwise.mp juz_chain_sep

theorem juz_at_idx :
    ∀ i : Fin juzMapping.length, (juzMapping.get i).juz = ((i : Nat) : Int) + 1 := by
  decide

theorem succPos_le_of_lt (es ev c v : Int) (hval : validPair c v)
    (hlt : lexLt ⟨es, ev⟩ ⟨c, v⟩) : lexLe (succPos ⟨es, ev⟩) ⟨c, v⟩ := by
  obtain ⟨hc1, hc2, hv1, hv2⟩ := hval
  simp only [lexLt] at hlt
  rw [succPos]
  simp only at *
  split_ifs with h
  · simp only [lexLe]
    omega
  · simp only [lexLe]
    rcases hlt with h1 | ⟨h2, h3⟩
    · omega
    · subst h2
      omega

theorem cover_aux : ∀ (l : List JuzRange) (c v : Int), validPair c v →
    List.Chain' (fun a b => b.start = succPos a.stop) l →
    (∀ r0, l.head? = some r0 → lexLe r0.start ⟨c, v⟩) →
    (∀ e, l.getLast? = some e → lexLe ⟨c, v⟩ e.stop) →
    l ≠ [] →
    ∃ r ∈ l, containsVerse r c v = true := by
  intro l
  induction l with
  | nil => intro c v _ _ _ _ hne; exact absurd rfl hne
  | cons r rest ih =>
    intro c v hval hchain hhead hlast _
    have hstart : lexLe r.start ⟨c, v⟩ := hhead r rfl
    by_cases hend : lexLe ⟨c, v⟩ r.stop
    · exact ⟨r, List.mem_cons_self r rest, (containsVerse_iff r c v).mpr ⟨hstart, hend⟩⟩
    · have hlt : lexLt r.stop ⟨c, v⟩ := by
        simp only [lexLe, not_or, not_and, not_le] at hend
        simp only [lexLt]
        omega
      cases rest with
      | nil =>
        exact absurd (hlast r (by simp)) hend
      | cons r2 rest2 =>
        have hch := List.chain'_cons.mp hchain
        have hstart2 : lexLe r2.start ⟨c, v⟩ := by
          rw [hch.1]
          exact succPos_le_of_lt r.stop.surah r.stop.verse c v hval hlt
        obtain ⟨rr, hmem, hcont⟩ := ih c v hval hch.2
          (fun r0 h => by
            simp only [List.head?] at h
            cases h
            exact hstart2)
          (fun e h => hlast e (by rw [List.getLast?_cons_cons]; exact h))
          (by simp)
        exact ⟨rr, List.mem_cons_of_mem r hmem, hcont⟩

theorem cover_unique (c v : Int) (r1 r2 : JuzRange)
    (h1 : r1 ∈ juzMapping) (h2 : r2 ∈ juzMapping)
    (hc1 : containsVerse r1 c v = true) (hc2 : containsVerse r2 c v = true) :
    r1 = r2 := by
  obtain ⟨i, hi, rfl⟩ := List.mem_iff_getElem.mp h1
  obtain ⟨j, hj, rfl⟩ := List.mem_iff_getElem.mp h2
  rcases Nat.lt_trichotomy i j with h | h | h
  · exfalso
    have hsep := List.pairwise_iff_getElem.mp juz_pairwise_sep i j hi hj h
    obtain ⟨hlt, _⟩ := hsep
    have ha := (containsVerse_iff _ c v).mp hc1
    have hb := (containsVerse_iff _ c v).mp hc2
    simp only [lexLe, lexLt] at ha hb hlt
    omega
  · subst h; rfl
  · exfalso
    have hsep := List.pairwise_iff_getElem.mp juz_pairwise_sep j i hj hi h
    obtain ⟨hlt, _⟩ := hsep
    have ha := (containsVerse_iff _ c v).mp hc1
    have hb := (containsVerse_iff _ c v).mp hc2
    simp only [lexLe, lexLt] at ha hb hlt
    omega

theorem juz_resolution (c v : Int) (hval : validPair c v) :
    ∃ r ∈ juzMapping, containsVerse r c v = true ∧ getJuzByVerse c v = r.juz ∧
      ∀ r2 ∈ juzMapping, containsVerse r2 c v = true → r2 = r := by
  have hhead : ∀ r0, juzMapping.head? = some r0 → lexLe r0.start ⟨c, v⟩ := by
    intro r0 h
    have : r0 = ⟨1, ⟨1, 1⟩, ⟨2, 141⟩⟩ := by
      rw [show juzMapping.head? = some ⟨1, ⟨1, 1⟩, ⟨2, 141⟩⟩ from rfl] at h
      cases h; rfl
    subst this
    obtain ⟨hc1, hc2, hv1, hv2⟩ := hval
    simp only [lexLe]
    omega
  have hlast : ∀ e, juzMapping.getLast? = some e → lexLe ⟨c, v⟩ e.stop := by
    intro e h
    have : e = ⟨30, ⟨78, 1⟩, ⟨114, 6⟩⟩ := by
      rw [show juzMapping.getLast? = some ⟨30, ⟨78, 1⟩, ⟨114, 6⟩⟩ from by decide] at h
      cases h; rfl
    subst this
    obtain ⟨hc1, hc2, hv1, hv2⟩ := hval
    simp only [lexLe]
    by_cases hc : c = 114
    · subst hc
      have : verseCount 114 = 6 := by decide
      omega
    · omega
  obtain ⟨r, hmem, hcont⟩ :=
    cover_aux juzMapping c v hval juz_chain hhead hlast (by decide)
  refine ⟨r, hmem, hcont, ?_, ?_⟩
  · unfold getJuzByVerse
    cases hfind : juzMapping.find? (fun rr => containsVerse rr c v) with
    | none =>
      exact absurd hcont (by simpa using List.find?_eq_none.mp hfind r hmem)
    | some r' =>
      have hr' := List.find?_some (p := fun rr => containsVerse rr c v) hfind
      simp only at hr'
      have hmem' : r' ∈ juzMapping :=
        List.mem_of_find?_eq_some (p := fun rr => containsVerse rr c v) hfind
      rw [cover_unique c v r' r hmem' hmem hr' hcont]
  · intro r2 hmem2 hcont2
    exact cover_unique c v r2 r hmem2 hmem hcont2 hcont

/-! ### Claim theorems for the pure partition resolver -/

/-- C2: for every valid (chapter, verse) address, exactly one entry of the
partition table contains it (no gaps, no overlaps over the corpus), its juz
number lies in 1..30, and `getJuzByVerse` returns exactly that entry's juz
number. -/
theorem getJuzByVerse_unique_coverage : ∀ c v : Int, validPair c v →
    ∃ r ∈ juzMapping, containsVerse r c v = true ∧ getJuzByVerse c v = r.juz ∧
      1 ≤ r.juz ∧ r.juz ≤ 30 ∧
      ∀ r2 ∈ juzMapping, containsVerse r2 c v = true → r2 = r := by
  intro c v hval
  obtain ⟨r, hmem, hcont, hjuz, huniq⟩ := juz_resolution c v hval
  have hbounds : ∀ r0 ∈ juzMapping, 1 ≤ r0.juz ∧ r0.juz ≤ 30 := by decide
  exact ⟨r, hmem, hcont, hjuz, (hbounds r hmem).1, (hbounds r hmem).2, huniq⟩

/-- Witness for C2 at the concrete valid address (2, 200). -/
theorem getJuzByVerse_unique_coverage_witness :
    validPair 2 200 ∧
    ∃ r ∈ juzMapping, containsVerse r 2 200 = true ∧ getJuzByVerse 2 200 = r.juz ∧
      1 ≤ r.juz ∧ r.juz ≤ 30 ∧
      ∀ r2 ∈ juzMapping, containsVerse r2 2 200 = true → r2 = r :=
  ⟨by decide, getJuzByVerse_unique_coverage 2 200 (by decide)⟩

/-- C3: `getJuzByVerse` is monotone with respect to the canonical
chapter-then-verse order on valid addresses. -/
theorem getJuzByVerse_monotone : ∀ c1 v1 c2 v2 : Int,
    validPair c1 v1 → validPair c2 v2 → lexLe ⟨c1, v1⟩ ⟨c2, v2⟩ →
    getJuzByVerse c1 v1 ≤ getJuzByVerse c2 v2 := by
  intro c1 v1 c2 v2 h1 h2 hle
  obtain ⟨r1, hm1, hcont1, hj1, _⟩ := juz_resolution c1 v1 h1
  obtain ⟨r2, hm2, hcont2, hj2, _⟩ := juz_resolution c2 v2 h2
  rw [hj1, hj2]
  by_contra hgt
  obtain ⟨i, hi, rfl⟩ := List.mem_iff_getElem.mp hm1
  obtain ⟨j, hj, rfl⟩ := List.mem_iff_getElem.mp hm2
  have e1 := juz_at_idx ⟨i, hi⟩
  have e2 := juz_at_idx ⟨j, hj⟩
  simp only [List.get_eq_getElem] at e1 e2
  have hji : j < i := by omega
  have hsep := List.pairwise_iff_getElem.mp juz_pairwise_sep j i hj hi hji
  obtain ⟨hsep1, _⟩ := hsep
  obtain ⟨hs1, he1⟩ := (containsVerse_iff _ c1 v1).mp hcont1
  obtain ⟨hs2, he2⟩ := (containsVerse_iff _ c2 v2).mp hcont2
  simp only [lexLe, lexLt] at hs1 he1 hs2 he2 hsep1 hle
  omega

/-- Witness for C3 at the concrete pair (2, 141) ≤ (2, 142). -/
theorem getJuzByVerse_monotone_witness :
    validPair 2 141 ∧ validPair 2 142 ∧ lexLe ⟨2, 141⟩ ⟨2, 142⟩ ∧
    getJuzByVerse 2 141 ≤ getJuzByVerse 2 142 :=
  ⟨by decide, by decide, by decide,
    getJuzByVerse_monotone 2 141 2 142 (by decide) (by decide) (by decide)⟩

/-- C4: `getJuzByVerse` at each partition's declared start pair returns that
partition's number, each partition's start (for partitions 2..30) is the
canonical successor of the previous partition's end pair (equivalently, its
predecessor is the previous end pair), and `getJuzByVerse` at that
predecessor returns the previous partition's number. -/
theorem getJuzByVerse_boundary_exact :
    (∀ k : Fin 30, (getJuzInfo ((k : Nat) + 1 : Int)).all
      (fun r => getJuzByVerse r.start.surah r.start.verse == r.juz) = true) ∧
    (∀ k : Fin 29, (getJuzInfo ((k : Nat) + 2 : Int)).all
      (fun r => (getJuzInfo ((k : Nat) + 1 : Int)).all
        (fun rPrev => (predPos r.start == rPrev.stop) &&
          (getJuzByVerse (predPos r.start).surah (predPos r.start).verse == rPrev.juz))) = true) := by
  constructor <;> decide

/-- C9: `getJuzByVerse` is total with range 1..30 on all integer inputs,
returns the fallback value 1 on inputs contained in no table entry, and on
the valid domain the fallback branch is unreachable (the scan always finds
an entry). -/
theorem getJuzByVerse_fallback_total :
    (∀ s v : Int, 1 ≤ getJuzByVerse s v ∧ getJuzByVerse s v ≤ 30) ∧
    (∀ s v : Int, (∀ r ∈ juzMapping, containsVerse r s v = false) →
      getJuzByVerse s v = 1) ∧
    (∀ s v : Int, validPair s v →
      (juzMapping.find? (fun r => containsVerse r s v)).isSome = true) := by
  refine ⟨?_, ?_, ?_⟩
  · intro s v
    unfold getJuzByVerse
    cases hfind : juzMapping.find? (fun r => containsVerse r s v) with
    | none => exact ⟨le_refl 1, by norm_num⟩
    | some r =>
      have hmem := List.mem_of_find?_eq_some (p := fun r => containsVerse r s v) hfind
      have hb : ∀ r0 ∈ juzMapping, 1 ≤ r0.juz ∧ r0.juz ≤ 30 := by decide
      exact hb r hmem
  · intro s v hnone
    unfold getJuzByVerse
    rw [List.find?_eq_none.mpr (fun x hx => by simp [hnone x hx])]
  · intro s v hval
    obtain ⟨r, hmem, hcont, _, _⟩ := juz_resolution s v hval
    rw [List.find?_isSome]
    exact ⟨r, hmem, hcont⟩

/-- Witness for C9 at concrete inputs: the bounds at (0, 0), the fallback at
the uncovered address (115, 40), and a successful scan at (3, 10). -/
theorem getJuzByVerse_fallback_total_witness :
    (1 ≤ getJuzByVerse 0 0 ∧ getJuzByVerse 0 0 ≤ 30) ∧
    getJuzByVerse 115 40 = 1 ∧
    (juzMapping.find? (fun r => containsVerse r 3 10)).isSome = true :=
  ⟨getJuzByVerse_fallback_total.1 0 0,
   getJuzByVerse_fallback_total.2.1 115 40 (by decide),
   getJuzByVerse_fallback_total.2.2 3 10 (by decide)⟩

set_option maxRecDepth 10000 in
set_option maxHeartbeats 1000000 in
/-- C5: for every chapter, `getJuzListBySurah` applied to the chapter and its
verse count is exactly the ascending duplicate-free run of consecutive
integers from the first verse's juz to the last verse's juz; in particular
chapter 1 yields [1] and chapter 2 yields [1, 2, 3]. -/
theorem getJuzListBySurah_consecutive :
    (∀ c : Fin 114, getJuzListBySurah ((c : Nat) + 1 : Int) (verseCount ((c : Nat) + 1 : Int)) =
      rangeInclusive (getJuzByVerse ((c : Nat) + 1 : Int) 1)
        (getJuzByVerse ((c : Nat) + 1 : Int) (verseCount ((c : Nat) + 1 : Int)))) ∧
    getJuzListBySurah 1 7 = [1] ∧ getJuzListBySurah 2 286 = [1, 2, 3] := by
  refine ⟨?_, by decide, by decide⟩
  decide

/-! ### Service-layer lemmas -/

theorem length_insertByKey {α : Type} (key : α → Int) (x : α) :
    ∀ l : List α, (insertByKey key x l).length = l.length + 1 := by
  intro l
  induction l with
  | nil => rfl
  | cons y ys ih =>
    rw [insertByKey]
    split_ifs with h
    · rfl
    · simp [ih]

theorem length_sortByKey {α : Type} (key : α → Int) :
    ∀ l : List α, (sortByKey key l).length = l.length := by
  intro l
  induction l with
  | nil => rfl
  | cons y ys ih =>
    show (insertByKey key y (sortByKey key ys)).length = ys.length + 1
    rw [length_insertByKey, ih]

theorem sortByKey_eq_nil_iff {α : Type} (key : α → Int) (l : List α) :
    sortByKey key l = [] ↔ l = [] := by
  constructor
  · intro h
    have := length_sortByKey key l
    rw [h] at this
    exact List.length_eq_zero.mp this.symm
  · intro h; subst h; rfl

theorem verseMatches_false_of_mismatch (c p : Int) (q : JuzSurahQuery) (r : VerseRec)
    (h : ¬(r.surahNumber = c ∧ r.juz = p)) : verseMatches c p q r = false := by
  simp only [verseMatches, Bool.and_eq_true, beq_iff_eq, Bool.and_eq_false_iff]
  by_cases h1 : r.surahNumber = c
  · by_cases h2 : r.juz = p
    · exact absurd ⟨h1, h2⟩ h
    · exact Or.inl (Or.inr (by simpa using h2))
  · exact Or.inl (Or.inl (by simpa using h1))

/-- C1 (amended): with a verse sub-range filter that excludes every stored
verse row, `findSurahByJuz` returns the Not-found outcome (`null`) — it does
not distinguish a valid chapter/partition combination filtered to zero
verses from an invalid combination. -/
theorem findSurahByJuz_none_of_filtered_empty :
    ∀ (db : DB) (p c : Int) (q : JuzSurahQuery),
    (∀ r ∈ db.verses, verseMatches c p q r = false) →
    findSurahByJuz db p c q = none := by
  intro db p c q h
  have hf : db.verses.filter (verseMatches c p q) = [] :=
    List.filter_eq_nil_iff.mpr (fun r hr => by simp [h r hr])
  unfold findSurahByJuz
  cases juzMapping.find? (fun j => j.juz == p) with
  | none => rfl
  | some _ =>
    cases surahLookup db c with
    | none => rfl
    | some s =>
      simp only [hf]
      rfl

/-- Witness for the amended C1: the concrete corpus `exampleDb`, chapter 2 in
partition 1 with `fromVerse = 2` beyond its only stored verse. -/
theorem findSurahByJuz_none_of_filtered_empty_witness :
    (∀ r ∈ exampleDb.verses, verseMatches 2 1 ⟨some 2, none⟩ r = false) ∧
    findSurahByJuz exampleDb 1 2 ⟨some 2, none⟩ = none :=
  ⟨by decide, findSurahByJuz_none_of_filtered_empty exampleDb 1 2 ⟨some 2, none⟩ (by decide)⟩

/-- Counterexample to C1 as stated: in `exampleDb`, chapter 2 is present in
partition 1 (the unfiltered lookup succeeds), yet the sub-range filter
`fromVerse = 2`, whose bound exceeds the chapter's last stored verse in the
partition, makes the lookup return the Not-found outcome `none` instead of a
successful response with an empty verse list. -/
theorem findSurahByJuz_subrange_not_found_counterexample :
    surahsInJuz exampleDb.verses 1 = [1, 2] ∧
    (findSurahByJuz exampleDb 1 2 ⟨none, none⟩).isSome = true ∧
    findSurahByJuz exampleDb 1 2 ⟨some 2, none⟩ = none := by
  refine ⟨by decide, by decide, by decide⟩

/-- C6: for a valid partition number, if the chapter is missing from the
surah table or no verse row is stored under (chapter, partition), both
`findSurahByJuz` and `findSurahTafsirByJuz` return the Not-found outcome. -/
theorem findSurahByJuz_not_found_empty_combination :
    ∀ (db : DB) (p c : Int) (q : JuzSurahQuery), 1 ≤ p → p ≤ 30 →
    (db.surahs.contains c = false ∨
      ∀ r ∈ db.verses, ¬(r.surahNumber = c ∧ r.juz = p)) →
    findSurahByJuz db p c q = none ∧ findSurahTafsirByJuz db p c q = none := by
  intro db p c q _ _ h
  rcases h with h | h
  · have h' : c ∉ db.surahs := by simpa using h
    constructor
    · unfold findSurahByJuz
      cases juzMapping.find? (fun j => j.juz == p) with
      | none => rfl
      | some _ => simp [surahLookup, h']
    · unfold findSurahTafsirByJuz
      cases juzMapping.find? (fun j => j.juz == p) with
      | none => rfl
      | some _ => simp [surahLookup, h']
  · have hf : db.verses.filter (verseMatches c p q) = [] :=
      List.filter_eq_nil_iff.mpr
        (fun r hr => by simp [verseMatches_false_of_mismatch c p q r (h r hr)])
    constructor
    · unfold findSurahByJuz
      cases juzMapping.find? (fun j => j.juz == p) with
      | none => rfl
      | some _ =>
        cases surahLookup db c with
        | none => rfl
        | some s => simp only [hf]; rfl
    · unfold findSurahTafsirByJuz
      cases juzMapping.find? (fun j => j.juz == p) with
      | none => rfl
      | some _ =>
        cases surahLookup db c with
        | none => rfl
        | some s => simp only [hf]; rfl

/-- Witness for C6: partition 3 holds no stored verses of chapter 1 in
`exampleDb`, and the lookups report not-found. -/
theorem findSurahByJuz_not_found_empty_combination_witness :
    ((1:Int) ≤ 3 ∧ (3:Int) ≤ 30 ∧
      ∀ r ∈ exampleDb.verses, ¬(r.surahNumber = 1 ∧ r.juz = 3)) ∧
    findSurahByJuz exampleDb 3 1 ⟨none, none⟩ = none ∧
    findSurahTafsirByJuz exampleDb 3 1 ⟨none, none⟩ = none := by
  refine ⟨⟨by norm_num, by norm_num, by decide⟩, ?_⟩
  exact findSurahByJuz_not_found_empty_combination exampleDb 3 1 ⟨none, none⟩
    (by norm_num) (by norm_num) (Or.inr (by decide))

/-- C10: the query schema accepts `toVerse = 0` (it has no lower bound), and
because the service tests the bounds for truthiness, `toVerse = 0` disables
the filter: the lookup behaves exactly like an unfiltered one. -/
theorem toVerse_zero_ignored :
    juzSurahQueryValid none (some 0) = true ∧
    ∀ (db : DB) (p c : Int),
      findSurahByJuz db p c ⟨none, some 0⟩ = findSurahByJuz db p c ⟨none, none⟩ := by
  refine ⟨rfl, fun db p c => ?_⟩
  have hvm : verseMatches c p ⟨none, some 0⟩ = verseMatches c p ⟨none, none⟩ := by
    funext r
    rfl
  unfold findSurahByJuz
  rw [hvm]

/-! ### Sorted-list and index lemmas for the navigation logic -/

theorem mem_insertDistinct (x a : Int) :
    ∀ l : List Int, a ∈ insertDistinct x l ↔ a = x ∨ a ∈ l := by
  intro l
  induction l with
  | nil => simp [insertDistinct]
  | cons y ys ih =>
    rw [insertDistinct]
    split_ifs with h1 h2
    · simp
    · have : x = y := by simpa using h2
      subst this
      simp
    · simp [ih]
      tauto

theorem pairwise_insertDistinct (x : Int) :
    ∀ l : List Int, l.Pairwise (· < ·) → (insertDistinct x l).Pairwise (· < ·) := by
  intro l
  induction l with
  | nil => intro; simp [insertDistinct]
  | cons y ys ih =>
    intro hp
    obtain ⟨hy, hys⟩ := List.pairwise_cons.mp hp
    rw [insertDistinct]
    split_ifs with h1 h2
    · refine List.pairwise_cons.mpr ⟨fun b hb => ?_, hp⟩
      rcases List.mem_cons.mp hb with rfl | hb
      · exact h1
      · exact lt_trans h1 (hy b hb)
    · exact hp
    · have hne : x ≠ y := by simpa using h2
      have hxy : y < x := by omega
      refine List.pairwise_cons.mpr ⟨fun b hb => ?_, ih hys⟩
      rcases (mem_insertDistinct x b ys).mp hb with rfl | hb
      · exact hxy
      · exact hy b hb

theorem pairwise_distinctSorted :
    ∀ l : List Int, (distinctSorted l).Pairwise (· < ·) := by
  intro l
  induction l with
  | nil => simp [distinctSorted]
  | cons y ys ih => exact pairwise_insertDistinct y (distinctSorted ys) ih

theorem mem_distinctSorted (a : Int) :
    ∀ l : List Int, a ∈ distinctSorted l ↔ a ∈ l := by
  intro l
  induction l with
  | nil => simp [distinctSorted]
  | cons y ys ih =>
    show a ∈ insertDistinct y (distinctSorted ys) ↔ _
    rw [mem_insertDistinct, ih]
    simp

theorem pairwise_surahsInJuz (vs : List VerseRec) (j : Int) :
    (surahsInJuz vs j).Pairwise (· < ·) :=
  pairwise_distinctSorted _

theorem mem_surahsInJuz (vs : List VerseRec) (j s : Int) :
    s ∈ surahsInJuz vs j ↔ ∃ r ∈ vs, r.juz = j ∧ r.surahNumber = s := by
  rw [surahsInJuz, mem_distinctSorted]
  simp only [List.mem_map, List.mem_filter, beq_iff_eq]
  constructor
  · rintro ⟨r, ⟨hmem, hj⟩, hs⟩
    exact ⟨r, hmem, hj, hs⟩
  · rintro ⟨r, hmem, hj, hs⟩
    exact ⟨r, ⟨hmem, hj⟩, hs⟩

theorem findIdxN_cons_self (y : Int) (t : List Int) : findIdxN (y :: t) y = some 0 := by
  simp [findIdxN]

theorem findIdxN_getElem :
    ∀ (l : List Int), l.Pairwise (· < ·) → ∀ (i : Nat) (hi : i < l.length),
      findIdxN l l[i] = some i := by
  intro l
  induction l with
  | nil => intro _ i hi; simp at hi
  | cons y t ih =>
    intro hp i hi
    obtain ⟨hy, ht⟩ := List.pairwise_cons.mp hp
    cases i with
    | zero => simp [findIdxN]
    | succ n =>
      have hn : n < t.length := by simpa using hi
      have hlt : y < t[n] := hy _ (List.getElem_mem hn)
      have hne : (y == t[n]) = false := by
        simp only [beq_eq_false_iff_ne, ne_eq]
        omega
      rw [List.getElem_cons_succ, findIdxN, hne]
      simp [ih ht n hn]

theorem jsIndexOf_getElem (l : List Int) (hp : l.Pairwise (· < ·)) (i : Nat)
    (hi : i < l.length) : jsIndexOf l l[i] = (i : Int) := by
  rw [jsIndexOf, findIdxN_getElem l hp i hi]

theorem surahLookup_eq_some (db : DB) (n s : Int) :
    surahLookup db n = some s ↔ s = n ∧ n ∈ db.surahs := by
  rw [surahLookup]
  split_ifs with h
  · simp only [Option.some.injEq]
    constructor
    · intro he; exact ⟨he.symm, by simpa using h⟩
    · intro ⟨he, _⟩; exact he.symm
  · simp only [reduceCtorEq, false_iff, not_and]
    intro _ hmem
    exact h (by simpa using hmem)

theorem verseMatches_noFilter (s j : Int) (r : VerseRec) :
    verseMatches s j ⟨none, none⟩ r = true ↔ r.surahNumber = s ∧ r.juz = j := by
  simp [verseMatches, buildNumberFilter, truthy, numberFilterOk]

theorem filter_noFilter_ne_nil (db : DB) (p Y : Int)
    (hmem : Y ∈ surahsInJuz db.verses p) :
    db.verses.filter (verseMatches Y p ⟨none, none⟩) ≠ [] := by
  obtain ⟨r, hr, hj, hs⟩ := (mem_surahsInJuz db.verses p Y).mp hmem
  have : r ∈ db.verses.filter (verseMatches Y p ⟨none, none⟩) :=
    List.mem_filter.mpr ⟨hr, (verseMatches_noFilter Y p r).mpr ⟨hs, hj⟩⟩
  exact List.ne_nil_of_mem this

theorem findSurahByJuz_eq_some (db : DB) (p c : Int) (q : JuzSurahQuery) (rp : JuzRange)
    (hfind : juzMapping.find? (fun j => j.juz == p) = some rp)
    (hmem : c ∈ db.surahs)
    (hne : db.verses.filter (verseMatches c p q) ≠ []) :
    findSurahByJuz db p c q = some
      { juz := p, surah := c,
        verses := sortByKey (fun r => r.number) (db.verses.filter (verseMatches c p q)),
        prevInfo := prevNavOf db p (surahsInJuz db.verses p)
          (jsIndexOf (surahsInJuz db.verses p) c),
        nextInfo := nextNavOf db p (surahsInJuz db.verses p)
          (jsIndexOf (surahsInJuz db.verses p) c) } := by
  have hlook : surahLookup db c = some c := by simp [surahLookup, hmem]
  have hemp : (sortByKey (fun r => r.number) (db.verses.filter (verseMatches c p q))).isEmpty
      = false := by
    rw [List.isEmpty_eq_false]
    rw [ne_eq, sortByKey_eq_nil_iff]
    exact hne
  unfold findSurahByJuz
  rw [hfind, hlook]
  simp only [hemp, Bool.false_eq_true, if_false]

theorem findSurahByJuz_some_inv (db : DB) (p c : Int) (q : JuzSurahQuery)
    (res : JuzSurahResult) (h : findSurahByJuz db p c q = some res) :
    ∃ rp, juzMapping.find? (fun j => j.juz == p) = some rp ∧ c ∈ db.surahs ∧
      db.verses.filter (verseMatches c p q) ≠ [] ∧
      res = { juz := p, surah := c,
              verses := sortByKey (fun r => r.number) (db.verses.filter (verseMatches c p q)),
              prevInfo := prevNavOf db p (surahsInJuz db.verses p)
                (jsIndexOf (surahsInJuz db.verses p) c),
              nextInfo := nextNavOf db p (surahsInJuz db.verses p)
                (jsIndexOf (surahsInJuz db.verses p) c) } := by
  unfold findSurahByJuz at h
  cases hfind : juzMapping.find? (fun j => j.juz == p) with
  | none => rw [hfind] at h; cases h
  | some rp =>
    rw [hfind] at h
    cases hlook : surahLookup db c with
    | none => rw [hlook] at h; cases h
    | some s =>
      rw [hlook] at h
      obtain ⟨hsc, hmem⟩ := (surahLookup_eq_some db c s).mp hlook
      subst s
      simp only [Option.some.injEq] at h
      simp at h
      obtain ⟨h1, h2⟩ := h
      rw [sortByKey_eq_nil_iff] at h1
      exact ⟨rp, rfl, hmem, h1, h2.symm⟩

theorem mapping_find_isSome_fin :
    ∀ k : Fin 30, (juzMapping.find? (fun j => j.juz == ((k : Nat) : Int) + 1)).isSome = true := by
  decide

theorem mapping_find_isSome (m : Int) (h1 : 1 ≤ m) (h2 : m ≤ 30) :
    (juzMapping.find? (fun j => j.juz == m)).isSome = true := by
  have hk := mapping_find_isSome_fin ⟨(m - 1).toNat, by omega⟩
  have he : (((m - 1).toNat : Nat) : Int) + 1 = m := by omega
  rw [he] at hk
  exact hk

theorem mapping_find_juz (m : Int) (r : JuzRange)
    (h : juzMapping.find? (fun j => j.juz == m) = some r) : r.juz = m := by
  have := List.find?_some (p := fun j : JuzRange => j.juz == m) h
  simpa using this

theorem findByNumber_eq (db : DB) (n : Int) (rp : JuzRange)
    (hfind : juzMapping.find? (fun j => j.juz == n) = some rp) :
    findByNumber db n = some
      { number := n, start := rp.start, stop := rp.stop,
        totalVerses := ((surahsInJuz db.verses n).map
          (fun sn => ((versesOfSurahInJuz db.verses n sn).length : Int))).foldl (· + ·) 0,
        surahs := ((surahsInJuz db.verses n).filter (fun sn => db.surahs.contains sn)).map
          (fun sn =>
            { number := sn,
              versesStart := (listMin? (versesOfSurahInJuz db.verses n sn)).getD 1,
              versesEnd := (listMax? (versesOfSurahInJuz db.verses n sn)).getD 1,
              totalVersesInJuz := ((versesOfSurahInJuz db.verses n sn).length : Int) }),
        prevInfo := (if n > 1 then juzMapping.find? (fun j => j.juz == n - 1) else none).map
          (fun j : JuzRange => j.juz),
        nextInfo := (if n < 30 then juzMapping.find? (fun j => j.juz == n + 1) else none).map
          (fun j : JuzRange => j.juz) } := by
  unfold findByNumber
  rw [hfind]

/-- C7: `findByNumber` on a valid partition number returns `prevInfo = none`
exactly for partition 1 and `nextInfo = none` exactly for partition 30 (and
references to partition−1 / partition+1 otherwise); in chapter-within-
partition navigation, the first stored chapter of partition 1 has no
previous target and the last stored chapter of partition 30 has no next
target. -/
theorem findByNumber_terminal_cases :
    (∀ (db : DB) (n : Int), 1 ≤ n → n ≤ 30 →
      ∃ res, findByNumber db n = some res ∧
        (res.prevInfo = none ↔ n = 1) ∧ (res.nextInfo = none ↔ n = 30) ∧
        (1 < n → res.prevInfo = some (n - 1)) ∧ (n < 30 → res.nextInfo = some (n + 1))) ∧
    (∀ (db : DB) (q : JuzSurahQuery) (c : Int) (res : JuzSurahResult),
      findSurahByJuz db 1 c q = some res →
      (surahsInJuz db.verses 1).head? = some c →
      res.prevInfo = none) ∧
    (∀ (db : DB) (q : JuzSurahQuery) (c : Int) (res : JuzSurahResult),
      findSurahByJuz db 30 c q = some res →
      (surahsInJuz db.verses 30).getLast? = some c →
      res.nextInfo = none) := by
  refine ⟨?_, ?_, ?_⟩
  · intro db n h1 h2
    obtain ⟨rp, hrp⟩ := Option.isSome_iff_exists.mp (mapping_find_isSome n h1 h2)
    refine ⟨_, findByNumber_eq db n rp hrp, ?_, ?_, ?_, ?_⟩
    · by_cases hn : n = 1
      · subst hn; simp
      · have hgt : n > 1 := by omega
        obtain ⟨r', hr'⟩ := Option.isSome_iff_exists.mp
          (mapping_find_isSome (n - 1) (by omega) (by omega))
        simp [hgt, hr', hn]
    · by_cases hn : n = 30
      · subst hn; simp
      · have hlt : n < 30 := by omega
        obtain ⟨r', hr'⟩ := Option.isSome_iff_exists.mp
          (mapping_find_isSome (n + 1) (by omega) (by omega))
        simp [hlt, hr', hn]
    · intro hgt
      obtain ⟨r', hr'⟩ := Option.isSome_iff_exists.mp
        (mapping_find_isSome (n - 1) (by omega) (by omega))
      simp [hgt, hr', mapping_find_juz (n - 1) r' hr']
    · intro hlt
      obtain ⟨r', hr'⟩ := Option.isSome_iff_exists.mp
        (mapping_find_isSome (n + 1) (by omega) (by omega))
      simp [hlt, hr', mapping_find_juz (n + 1) r' hr']
  · intro db q c res hres hhead
    obtain ⟨rp, hfind, hmem, hne, hpayload⟩ := findSurahByJuz_some_inv db 1 c q res hres
    subst hpayload
    show prevNavOf db 1 (surahsInJuz db.verses 1) (jsIndexOf (surahsInJuz db.verses 1) c) = none
    cases hl : surahsInJuz db.verses 1 with
    | nil => rw [hl] at hhead; cases hhead
    | cons a t =>
      rw [hl] at hhead
      have : a = c := by simpa using hhead
      subst this
      rw [jsIndexOf, findIdxN_cons_self]
      rw [prevNavOf]
      norm_num
  · intro db q c res hres hlast
    obtain ⟨rp, hfind, hmem, hne, hpayload⟩ := findSurahByJuz_some_inv db 30 c q res hres
    subst hpayload
    show nextNavOf db 30 (surahsInJuz db.verses 30) (jsIndexOf (surahsInJuz db.verses 30) c) = none
    rw [List.getLast?_eq_getElem?] at hlast
    obtain ⟨hlt, hc⟩ := List.getElem?_eq_some_iff.mp hlast
    have hlen : 0 < (surahsInJuz db.verses 30).length := by omega
    subst hc
    rw [jsIndexOf_getElem _ (pairwise_surahsInJuz db.verses 30) _ hlt]
    rw [nextNavOf]
    rw [if_neg (by omega)]
    rw [if_neg (by norm_num)]

/-- Witness for C7: `findByNumber` at partition 5, the first chapter of
partition 1 and the last chapter of partition 30 in `exampleDb`. -/
theorem findByNumber_terminal_cases_witness :
    ((1:Int) ≤ 5 ∧ (5:Int) ≤ 30 ∧
      ∃ res, findByNumber exampleDb 5 = some res ∧
        res.prevInfo = some 4 ∧ res.nextInfo = some 6) ∧
    (∃ res, findSurahByJuz exampleDb 1 1 ⟨none, none⟩ = some res ∧
      res.prevInfo = none) ∧
    (∃ res, findSurahByJuz exampleDb 30 114 ⟨none, none⟩ = some res ∧
      res.nextInfo = none) := by
  refine ⟨⟨by norm_num, by norm_num, ?_⟩, ?_, ?_⟩
  · obtain ⟨res, h1, _, _, h4, h5⟩ :=
      findByNumber_terminal_cases.1 exampleDb 5 (by norm_num) (by norm_num)
    exact ⟨res, h1, by simpa using h4 (by norm_num), by simpa using h5 (by norm_num)⟩
  · cases hres : findSurahByJuz exampleDb 1 1 ⟨none, none⟩ with
    | none => exact absurd hres (by decide)
    | some r =>
      exact ⟨r, rfl,
        findByNumber_terminal_cases.2.1 exampleDb ⟨none, none⟩ 1 r hres (by decide)⟩
  · cases hres : findSurahByJuz exampleDb 30 114 ⟨none, none⟩ with
    | none => exact absurd hres (by decide)
    | some r =>
      exact ⟨r, rfl,
        findByNumber_terminal_cases.2.2 exampleDb ⟨none, none⟩ 114 r hres (by decide)⟩

theorem mapping_juz_bounds : ∀ r ∈ juzMapping, 1 ≤ r.juz ∧ r.juz ≤ 30 := by decide

theorem verseMatches_fields (s j : Int) (q : JuzSurahQuery) (r : VerseRec)
    (h : verseMatches s j q r = true) : r.surahNumber = s ∧ r.juz = j := by
  simp only [verseMatches, Bool.and_eq_true, beq_iff_eq] at h
  exact ⟨h.1.1, h.1.2⟩

/-- C8: if chapter X's next navigation target computed by `findSurahByJuz`
in partition p is chapter Y in partition pq (pq = p or p + 1), then chapter
Y's previous navigation target computed in partition pq is chapter X in
partition p — for every stored corpus. -/
theorem nav_prev_next_symmetry :
    ∀ (db : DB) (p X : Int) (q : JuzSurahQuery) (res : JuzSurahResult) (pq Y : Int),
    findSurahByJuz db p X q = some res →
    res.nextInfo = some ⟨pq, Y⟩ →
    ∃ res2, findSurahByJuz db pq Y ⟨none, none⟩ = some res2 ∧
      res2.prevInfo = some ⟨p, X⟩ := by
  intro db p X q res pq Y hres hnext
  obtain ⟨rp, hfind, hmemX, hneX, hpayload⟩ := findSurahByJuz_some_inv db p X q res hres
  subst hpayload
  have hnext2 : nextNavOf db p (surahsInJuz db.verses p)
      (jsIndexOf (surahsInJuz db.verses p) X) = some ⟨pq, Y⟩ := hnext
  set l := surahsInJuz db.verses p with hl
  have hXl : X ∈ l := by
    obtain ⟨r0, hr0⟩ := List.exists_mem_of_ne_nil _ hneX
    obtain ⟨hr0mem, hr0m⟩ := List.mem_filter.mp hr0
    obtain ⟨hsn, hjz⟩ := verseMatches_fields X p q r0 hr0m
    rw [hl, mem_surahsInJuz]
    exact ⟨r0, hr0mem, hjz, hsn⟩
  obtain ⟨j, hj, hXj⟩ := List.mem_iff_getElem.mp hXl
  have hpl : l.Pairwise (· < ·) := pairwise_surahsInJuz db.verses p
  have hidx : jsIndexOf l X = (j : Int) := by
    rw [← hXj]; exact jsIndexOf_getElem l hpl j hj
  rw [hidx] at hnext2
  unfold nextNavOf at hnext2
  have hpbounds : 1 ≤ p ∧ p ≤ 30 := by
    have hmemrp := List.mem_of_find?_eq_some (p := fun jj : JuzRange => jj.juz == p) hfind
    have := mapping_juz_bounds rp hmemrp
    have := mapping_find_juz p rp hfind
    omega
  by_cases hcase : (j : Int) < (l.length : Int) - 1
  · rw [if_pos hcase] at hnext2
    have ht : ((j : Int) + 1).toNat = j + 1 := by omega
    rw [ht] at hnext2
    have hj1 : j + 1 < l.length := by omega
    rw [List.get?_eq_getElem?, List.getElem?_eq_getElem hj1] at hnext2
    simp only [Option.map_eq_some'] at hnext2
    obtain ⟨s0, hs0, hnav⟩ := hnext2
    obtain ⟨hs0e, hmemY⟩ := (surahLookup_eq_some db (l[j + 1]) s0).mp hs0
    subst s0
    injection hnav with h1 h2
    subst pq
    subst Y
    have hYverse : db.verses.filter (verseMatches (l[j + 1]) p ⟨none, none⟩) ≠ [] :=
      filter_noFilter_ne_nil db p (l[j + 1]) (by rw [hl] at *; exact List.getElem_mem hj1)
    refine ⟨_, findSurahByJuz_eq_some db p (l[j + 1]) ⟨none, none⟩ rp hfind hmemY hYverse, ?_⟩
    show prevNavOf db p l (jsIndexOf l (l[j + 1])) = some ⟨p, X⟩
    rw [jsIndexOf_getElem l hpl (j + 1) hj1]
    unfold prevNavOf
    rw [if_pos (by omega)]
    have ht2 : (((j + 1 : Nat) : Int) - 1).toNat = j := by omega
    rw [ht2]
    rw [List.get?_eq_getElem?, List.getElem?_eq_getElem hj]
    simp [hXj, surahLookup, hmemX]
  · rw [if_neg hcase] at hnext2
    by_cases h30 : p < 30
    · rw [if_pos h30] at hnext2
      cases hl2 : surahsInJuz db.verses (p + 1) with
      | nil => rw [hl2] at hnext2; cases hnext2
      | cons Y0 t2 =>
        rw [hl2] at hnext2
        simp only [Option.map_eq_some'] at hnext2
        obtain ⟨s0, hs0, hnav⟩ := hnext2
        obtain ⟨hs0e, hmemY0⟩ := (surahLookup_eq_some db Y0 s0).mp hs0
        subst s0
        injection hnav with h1 h2
        subst pq
        subst Y
        obtain ⟨rp2, hrp2⟩ := Option.isSome_iff_exists.mp
          (mapping_find_isSome (p + 1) (by omega) (by omega))
        have hY0mem : Y0 ∈ surahsInJuz db.verses (p + 1) := by
          rw [hl2]; exact List.mem_cons_self Y0 t2
        have hneY := filter_noFilter_ne_nil db (p + 1) Y0 hY0mem
        refine ⟨_, findSurahByJuz_eq_some db (p + 1) Y0 ⟨none, none⟩ rp2 hrp2 hmemY0 hneY, ?_⟩
        show prevNavOf db (p + 1) (surahsInJuz db.verses (p + 1))
          (jsIndexOf (surahsInJuz db.verses (p + 1)) Y0) = some ⟨p, X⟩
        rw [hl2, jsIndexOf, findIdxN_cons_self]
        unfold prevNavOf
        rw [if_neg (by norm_num)]
        rw [if_pos (by omega)]
        have hp1 : p + 1 - 1 = p := by ring
        rw [hp1, ← hl]
        have hjlast : j = l.length - 1 := by omega
        have hrev : l.reverse.head? = some X := by
          rw [List.head?_reverse, List.getLast?_eq_getElem?]
          have : l.length - 1 = j := by omega
          rw [this, List.getElem?_eq_getElem hj, hXj]
        cases hrevl : l.reverse with
        | nil => rw [hrevl] at hrev; cases hrev
        | cons X0 tr =>
          rw [hrevl] at hrev
          have hX0 : X0 = X := by simpa using hrev
          subst hX0
          simp [surahLookup, hmemX]
    · rw [if_neg h30] at hnext2
      cases hnext2

/-- Witness for C8: in `exampleDb`, chapter 1's next target in partition 1 is
chapter 2 (same partition), whose previous target is chapter 1 in
partition 1. -/
theorem nav_prev_next_symmetry_witness :
    (∃ res, findSurahByJuz exampleDb 1 1 ⟨none, none⟩ = some res ∧
      res.nextInfo = some ⟨1, 2⟩) ∧
    (∃ res2, findSurahByJuz exampleDb 1 2 ⟨none, none⟩ = some res2 ∧
      res2.prevInfo = some ⟨1, 1⟩) := by
  have hmap : (findSurahByJuz exampleDb 1 1 ⟨none, none⟩).map
      (fun r => r.nextInfo) = some (some ⟨1, 2⟩) := by decide
  cases hres : findSurahByJuz exampleDb 1 1 ⟨none, none⟩ with
  | none => exact absurd hres (by decide)
  | some r =>
    rw [hres] at hmap
    simp only [Option.map_some', Option.some.injEq] at hmap
    refine ⟨⟨r, rfl, hmap⟩, ?_⟩
    exact nav_prev_next_symmetry exampleDb 1 1 ⟨none, none⟩ r 1 2 hres hmap
